import Mathlib

/-!
Verification development for the `gauche` example-notebook repository.

The repository consists of Jupyter notebooks that wire external ML libraries
into experiment loops.  We shallowly embed the in-repo evaluation/training
glue: the sklearn-style metric functions, the `evaluate_model`
cross-validation loops of the Bayesian-GNN notebook and of the two
Tanimoto-GP notebooks, the Bayesian-GNN early-stopping epoch loop, the
stochastic `predict` helper, and the confidence-error-curve computation.
Real-valued labels, predictions and variances are modelled as rationals
(the claims under study are about the algebraic structure of the
computations, not about floating-point rounding); quantities that require
transcendental functions (the Gaussian log-density, square roots) live
in `ℝ`.
-/

namespace Gauche

/-! ## sklearn-style metrics (sklearn.metrics), elementwise on lists

`mean_absolute_error` and `mean_squared_error` zip the two arrays
elementwise, exactly like the sklearn functions on equal-length 1-d
arrays.  `npMean` is `np.mean`, `npStd` squared is modelled through
`npVarPop` (`np.std(x)^2`, the population variance). -/

def npMean (xs : List ℚ) : ℚ := xs.sum / xs.length

def absErrors (y_true y_pred : List ℚ) : List ℚ :=
  (y_true.zip y_pred).map (fun p => |p.1 - p.2|)

def mean_absolute_error (y_true y_pred : List ℚ) : ℚ :=
  (absErrors y_true y_pred).sum / y_true.length

def sqErrors (y_true y_pred : List ℚ) : List ℚ :=
  (y_true.zip y_pred).map (fun p => (p.1 - p.2) ^ 2)

def mean_squared_error (y_true y_pred : List ℚ) : ℚ :=
  (sqErrors y_true y_pred).sum / y_true.length

def r2_score (y_true y_pred : List ℚ) : ℚ :=
  1 - (sqErrors y_true y_pred).sum /
    ((y_true.map (fun v => (v - npMean y_true) ^ 2)).sum)

/-! ## The label scaler

`transform_data` (gauche.dataloader.data_utils) fits an
`sklearn.preprocessing.StandardScaler` on the training labels; a fitted
scaler is a pair (mean, scale) with `transform y = (y - mean)/scale` and
`inverse_transform y = y * scale + mean`. -/

structure Scaler where
  mu : ℚ
  sigma : ℚ
deriving DecidableEq, Repr

def Scaler.transform (s : Scaler) (ys : List ℚ) : List ℚ :=
  ys.map (fun v => (v - s.mu) / s.sigma)

def Scaler.inverse_transform (s : Scaler) (ys : List ℚ) : List ℚ :=
  ys.map (fun v => v * s.sigma + s.mu)

theorem Scaler.inverse_transform_transform (s : Scaler) (hs : s.sigma ≠ 0)
    (ys : List ℚ) : s.inverse_transform (s.transform ys) = ys := by
  unfold Scaler.transform Scaler.inverse_transform
  rw [List.map_map]
  have h : ((fun v => v * s.sigma + s.mu) ∘ fun v : ℚ => (v - s.mu) / s.sigma) = id := by
    funext v
    simp only [Function.comp_apply, id_eq]
    field_simp
  rw [h, List.map_id]

/-! ## np.argsort

`np.argsort(v)` returns the indices that sort `v` ascending.  We realise
it as an insertion sort of `range v.length` by value with ties broken by
index; the properties proved about it (the prefix of length `k+1` picks
`k+1` positions whose values are below all remaining values) hold for any
argsort implementation. -/

def argsortRel (v : List ℚ) (a b : ℕ) : Prop :=
  v.getD a 0 < v.getD b 0 ∨ (v.getD a 0 = v.getD b 0 ∧ a ≤ b)

instance (v : List ℚ) (a b : ℕ) : Decidable (argsortRel v a b) := by
  unfold argsortRel
  infer_instance

instance (v : List ℚ) : IsTotal ℕ (argsortRel v) := by
  constructor
  intro a b
  rcases lt_trichotomy (v.getD a 0) (v.getD b 0) with h | h | h
  · exact Or.inl (Or.inl h)
  · rcases Nat.le_total a b with hab | hab
    · exact Or.inl (Or.inr ⟨h, hab⟩)
    · exact Or.inr (Or.inr ⟨h.symm, hab⟩)
  · exact Or.inr (Or.inl h)

instance (v : List ℚ) : IsTrans ℕ (argsortRel v) := by
  constructor
  rintro a b c (hab | ⟨hab, hab2⟩) (hbc | ⟨hbc, hbc2⟩)
  · exact Or.inl (hab.trans hbc)
  · exact Or.inl (hbc ▸ hab)
  · exact Or.inl (hab ▸ hbc)
  · exact Or.inr ⟨hab.trans hbc, hab2.trans hbc2⟩

def argsort (v : List ℚ) : List ℕ :=
  (List.range v.length).insertionSort (argsortRel v)

theorem argsort_perm_range (v : List ℚ) :
    List.Perm (argsort v) (List.range v.length) :=
  List.perm_insertionSort (argsortRel v) (List.range v.length)

theorem argsort_length (v : List ℚ) : (argsort v).length = v.length := by
  simpa using (argsort_perm_range v).length_eq

theorem argsort_sorted (v : List ℚ) :
    List.Sorted (argsortRel v) (argsort v) :=
  List.sorted_insertionSort (argsortRel v) (List.range v.length)

theorem argsort_nodup (v : List ℚ) : (argsort v).Nodup :=
  (argsort_perm_range v).nodup_iff.mpr (List.nodup_range _)

theorem mem_argsort_iff (v : List ℚ) (j : ℕ) :
    j ∈ argsort v ↔ j < v.length := by
  rw [(argsort_perm_range v).mem_iff, List.mem_range]

/-- Elements of the take-prefix of `argsort` have values below all
elements of the corresponding drop-suffix. -/
theorem argsort_take_le_drop (v : List ℚ) (k : ℕ) {a b : ℕ}
    (ha : a ∈ (argsort v).take k) (hb : b ∈ (argsort v).drop k) :
    v.getD a 0 ≤ v.getD b 0 := by
  have h := (argsort_sorted v).rel_of_mem_take_of_mem_drop ha hb
  rcases h with h | ⟨h, _⟩
  · exact le_of_lt h
  · exact le_of_eq h

/-- numpy fancy indexing `xs[idx]` for an index array `idx`. -/
def select (xs : List ℚ) (idx : List ℕ) : List ℚ :=
  idx.map (fun j => xs.getD j 0)

theorem select_length (xs : List ℚ) (idx : List ℕ) :
    (select xs idx).length = idx.length := by
  simp [select]

/-! ## Confidence-error curve

All three `evaluate_model` functions compute, for each trial, the row

  `for k in range(len(y_test)): conf = ranked_confidence_list[0:k+1];`
  `mae_confidence_list[i, k] = mean_absolute_error(y_test[conf], y_pred[conf])`

with `ranked_confidence_list = np.argsort(y_var, axis=0).flatten()`, and
then plot `np.flip(np.mean(mae_confidence_list, axis=0))`. -/

def confRow (y_test y_pred y_var : List ℚ) : List ℚ :=
  (List.range y_test.length).map (fun k =>
    mean_absolute_error (select y_test ((argsort y_var).take (k + 1)))
      (select y_pred ((argsort y_var).take (k + 1))))

/-- `np.mean(m, axis=0)` for a matrix given as a list of rows of width `n`. -/
def colMeans (m : List (List ℚ)) (n : ℕ) : List ℚ :=
  (List.range n).map (fun k => npMean (m.map (fun row => row.getD k 0)))

/-- `np.flip` of the column means: the y-values of the plotted
confidence-error curve, leftmost first. -/
def plottedCurve (m : List (List ℚ)) (n : ℕ) : List ℚ :=
  (colMeans m n).reverse

theorem zip_map_sum_eq_range (f : ℚ → ℚ → ℚ) :
    ∀ ys zs : List ℚ, ys.length = zs.length →
      ((ys.zip zs).map (fun p => f p.1 p.2)).sum
        = ((List.range ys.length).map
            (fun j => f (ys.getD j 0) (zs.getD j 0))).sum := by
  intro ys
  induction ys with
  | nil => intro zs _; simp
  | cons y ys ih =>
    intro zs hlen
    cases zs with
    | nil => simp at hlen
    | cons z zs =>
      simp only [List.length_cons, Nat.succ.injEq] at hlen
      rw [List.zip_cons_cons, List.map_cons, List.sum_cons, ih zs hlen]
      rw [List.length_cons, List.range_succ_eq_map, List.map_cons,
        List.sum_cons, List.map_map]
      congr 1

theorem mae_select_perm (y_test y_pred : List ℚ) (idx : List ℕ)
    (hperm : List.Perm idx (List.range y_test.length))
    (hlen : y_test.length = y_pred.length) :
    mean_absolute_error (select y_test idx) (select y_pred idx)
      = mean_absolute_error y_test y_pred := by
  unfold mean_absolute_error absErrors select
  rw [List.zip_map']
  rw [List.map_map]
  rw [List.length_map, hperm.length_eq, List.length_range]
  have hsum :
      (idx.map ((fun p : ℚ × ℚ => |p.1 - p.2|) ∘
          fun j => (y_test.getD j 0, y_pred.getD j 0))).sum
        = (((List.range y_test.length)).map ((fun p : ℚ × ℚ => |p.1 - p.2|) ∘
          fun j => (y_test.getD j 0, y_pred.getD j 0))).sum :=
    (hperm.map _).sum_eq
  rw [hsum]
  rw [zip_map_sum_eq_range (fun a b => |a - b|) y_test y_pred hlen]
  congr 1

/-- The `k`-prefix of `argsort v` selects positions whose variances lie
below those of every position outside the prefix. -/
theorem argsort_take_smallest (v : List ℚ) (k : ℕ) :
    ∀ a ∈ (argsort v).take k, ∀ b < v.length,
      b ∉ (argsort v).take k → v.getD a 0 ≤ v.getD b 0 := by
  intro a ha b hb hbn
  have hbmem : b ∈ argsort v := (mem_argsort_iff v b).mpr hb
  have hsplit : argsort v = (argsort v).take k ++ (argsort v).drop k :=
    (List.take_append_drop k (argsort v)).symm
  have hbdrop : b ∈ (argsort v).drop k := by
    rw [hsplit] at hbmem
    rcases List.mem_append.mp hbmem with h | h
    · exact absurd h hbn
    · exact h
  exact argsort_take_le_drop v k ha hbdrop

/-! ## The GP-regression `evaluate_model` loop

This embeds the `evaluate_model` helper that appears (identically) in the
"GP Regression on Molecules" notebook and in the bag-of-amino-acids
protein notebook.  External library behaviour (the sklearn splitter, the
StandardScaler fit, the fitted-GP posterior) is abstracted into an
environment record; the in-repo control flow and data flow are embedded
faithfully. -/

/-- Feature matrices are lists of rational-valued rows. -/
abbrev Mat : Type := List (List ℚ)

structure GPEnv where
  /-- `sklearn.model_selection.train_test_split` on `(X, y)` for a given
  test fraction and integer seed.  Per the sklearn documentation, passing
  an int `random_state` produces reproducible output across calls, so the
  seeded splitter is a pure function of the data, the fraction and the
  seed. -/
  baseSplit : Mat → List ℚ → ℚ → ℕ → Mat × Mat × List ℚ × List ℚ
  /-- `StandardScaler().fit(y_train)` — the fitted label scaler
  (its scale is a real-valued standard deviation, abstracted here). -/
  fitScaler : List ℚ → Scaler
  /-- the X-standardization performed inside `transform_data`
  (both notebooks discard these outputs). -/
  scaleX : Mat → Mat
  /-- the fitted GP posterior: given the training set handed to
  `ExactGPModel` and query inputs, the posterior mean and variance
  (`f_pred.mean`, `f_pred.variance`) after `fit_gpytorch_model`. -/
  gpPosterior : Mat → List ℚ → Mat → List ℚ × List ℚ

/-- `train_test_split(X, y, test_size=…, random_state=…)`.  With
`random_state = some s` the result depends only on the data and `s`;
with `random_state = none` sklearn draws from the ambient global RNG,
modelled by the extra `amb` argument. -/
def train_test_split (env : GPEnv) (X : Mat) (y : List ℚ) (test_size : ℚ)
    (random_state : Option ℕ) (amb : ℕ) : Mat × Mat × List ℚ × List ℚ :=
  match random_state with
  | some s => env.baseSplit X y test_size s
  | none => env.baseSplit X y test_size amb

/-- Modelled from the spec: `transform_data` from
`gauche.dataloader.data_utils` (the gauche package sources are not among
the notebook sources under verification; the spec describes it as the
"data loading/featurization utilities" standardization step, and the
notebooks comment "We standardise the outputs but leave the inputs
unchanged").  It standardizes the inputs with one scaler and the labels
with a `StandardScaler` fitted on the training labels, returning
`(X_train_scaled, y_train_scaled, X_test_scaled, y_test_scaled,
y_scaler)`. -/
def transform_data {β : Type} (scaleX : β → β) (fitScaler : List ℚ → Scaler)
    (X_train : β) (y_train : List ℚ) (X_test : β) (y_test : List ℚ) :
    β × List ℚ × β × List ℚ × Scaler :=
  let sc := fitScaler y_train
  (scaleX X_train, sc.transform y_train,
   scaleX X_test, sc.transform y_test, sc)

/-- Everything one trial of the GP `evaluate_model` loop computes and
records. -/
structure GPTrial where
  /-- arguments handed to `train_test_split`: (test fraction, seed). -/
  splitArgs : ℚ × Option ℕ
  /-- the four outputs of the in-loop `train_test_split`. -/
  X_train : Mat
  X_test : Mat
  y_train_raw : List ℚ
  y_test_raw : List ℚ
  /-- the label scaler returned by `transform_data`. -/
  y_scaler : Scaler
  /-- training data handed to `ExactGPModel(train_x, train_y, …)`. -/
  modelInputX : Mat
  modelInputY : List ℚ
  /-- query inputs handed to `model(X_test)`. -/
  predictInputX : Mat
  /-- posterior variance `f_pred.variance`. -/
  y_var : List ℚ
  /-- `y_pred` after `y_scaler.inverse_transform`. -/
  y_pred : List ℚ
  /-- `y_test` after `y_scaler.inverse_transform`. -/
  y_test : List ℚ
  /-- the row written into `mae_confidence_list[i]`. -/
  maeConfRow : List ℚ
  /-- `r2_score(y_test, y_pred)` recorded into `r2_list`. -/
  r2 : ℚ
  /-- `mean_squared_error(y_test, y_pred)`; the recorded RMSE is its
  real square root. -/
  mse : ℚ
  /-- `mean_absolute_error(y_test, y_pred)` recorded into `mae_list`. -/
  mae : ℚ

/-- One trial of the GP `evaluate_model` loop (trial index `i`), embedding
the loop body line by line.  `torch.tensor(·.astype(np.float64))`,
`flatten`, `unsqueeze` and `detach` are value-preserving conversions and
are identities in this model. -/
def gpTrial (env : GPEnv) (X : Mat) (y : List ℚ) (amb i : ℕ) : GPTrial :=
  let sp := train_test_split env X y (1 / 5) (some i) amb
  let X_train := sp.1
  let X_test := sp.2.1
  let y_train0 := sp.2.2.1
  let y_test0 := sp.2.2.2
  let td := transform_data env.scaleX env.fitScaler X_train y_train0 X_test y_test0
  let y_train := td.2.1
  let y_test1 := td.2.2.2.1
  let y_scaler := td.2.2.2.2
  let pred := env.gpPosterior X_train y_train X_test
  let y_pred0 := pred.1
  let y_var := pred.2
  let y_pred := y_scaler.inverse_transform y_pred0
  let y_test := y_scaler.inverse_transform y_test1
  { splitArgs := (1 / 5, some i)
    X_train := X_train
    X_test := X_test
    y_train_raw := y_train0
    y_test_raw := y_test0
    y_scaler := y_scaler
    modelInputX := X_train
    modelInputY := y_train
    predictInputX := X_test
    y_var := y_var
    y_pred := y_pred
    y_test := y_test
    maeConfRow := confRow y_test y_pred y_var
    r2 := r2_score y_test y_pred
    mse := mean_squared_error y_test y_pred
    mae := mean_absolute_error y_test y_pred }

/-- The accumulator grown by the trial loop: the per-trial metric lists
(each trial appends one value to each) and the confidence matrix rows. -/
structure GPAcc where
  r2_list : List ℚ
  mse_list : List ℚ
  mae_list : List ℚ
  mae_confidence_list : List (List ℚ)
  trials : List GPTrial

def gpAccInit : GPAcc :=
  { r2_list := [], mse_list := [], mae_list := [],
    mae_confidence_list := [], trials := [] }

def gpAccStep (env : GPEnv) (X : Mat) (y : List ℚ) (amb : ℕ)
    (acc : GPAcc) (i : ℕ) : GPAcc :=
  let t := gpTrial env X y amb i
  { r2_list := acc.r2_list ++ [t.r2]
    mse_list := acc.mse_list ++ [t.mse]
    mae_list := acc.mae_list ++ [t.mae]
    mae_confidence_list := acc.mae_confidence_list ++ [t.maeConfRow]
    trials := acc.trials ++ [t] }

/-- `for i in range(0, n_trials): …` — the cross-validation loop of
`evaluate_model`. -/
def gpRun (env : GPEnv) (X : Mat) (y : List ℚ) (amb n_trials : ℕ) : GPAcc :=
  (List.range n_trials).foldl (gpAccStep env X y amb) gpAccInit

/-- The recorded `rmse_list`: `np.sqrt(mean_squared_error(y_test, y_pred))`
per trial. -/
noncomputable def gpRmseList (acc : GPAcc) : List ℝ :=
  acc.mse_list.map (fun m : ℚ => Real.sqrt (m : ℝ))

theorem gpRun_foldl (env : GPEnv) (X : Mat) (y : List ℚ) (amb : ℕ) :
    ∀ (l : List ℕ) (acc : GPAcc),
      l.foldl (gpAccStep env X y amb) acc =
        { r2_list := acc.r2_list ++ l.map (fun i => (gpTrial env X y amb i).r2)
          mse_list := acc.mse_list ++ l.map (fun i => (gpTrial env X y amb i).mse)
          mae_list := acc.mae_list ++ l.map (fun i => (gpTrial env X y amb i).mae)
          mae_confidence_list := acc.mae_confidence_list
            ++ l.map (fun i => (gpTrial env X y amb i).maeConfRow)
          trials := acc.trials ++ l.map (gpTrial env X y amb) } := by
  intro l
  induction l with
  | nil => intro acc; simp
  | cons x xs ih =>
    intro acc
    rw [List.foldl_cons, ih]
    simp [gpAccStep]

/-- The cross-validation loop appends exactly one entry per trial to each
record: after `n_trials` iterations each recorded list is the map of the
trial computation over `range n_trials`. -/
theorem gpRun_eq_map (env : GPEnv) (X : Mat) (y : List ℚ) (amb n : ℕ) :
    gpRun env X y amb n =
      { r2_list := (List.range n).map (fun i => (gpTrial env X y amb i).r2)
        mse_list := (List.range n).map (fun i => (gpTrial env X y amb i).mse)
        mae_list := (List.range n).map (fun i => (gpTrial env X y amb i).mae)
        mae_confidence_list :=
          (List.range n).map (fun i => (gpTrial env X y amb i).maeConfRow)
        trials := (List.range n).map (gpTrial env X y amb) } := by
  rw [gpRun, gpRun_foldl]
  simp [gpAccInit]

/-! ## The Bayesian-GNN notebook: `predict`, `nlpd`

`predict(regressor, X, samples=100)` draws `samples` stochastic forward
passes (`regressor(X)[0]`); we model the sequence of passes as a function
from the pass index to the output batch.  `preds.mean(axis=0)` is the
elementwise mean; `preds.var(axis=0)` is `torch.var` with its default
`unbiased=True`, i.e. the sample variance normalized by `samples - 1`. -/

def predict (forward : ℕ → List ℚ) (d samples : ℕ) : List ℚ × List ℚ :=
  let preds := (List.range samples).map forward
  let means := (List.range d).map (fun j =>
    (preds.map (fun p => p.getD j 0)).sum / samples)
  let vars := (List.range d).map (fun j =>
    (preds.map (fun p => (p.getD j 0 -
      (preds.map (fun q => q.getD j 0)).sum / samples) ^ 2)).sum
      / ((samples : ℚ) - 1))
  (means, vars)

/-- The default of the `samples` keyword of `predict`. -/
def predictSamplesDefault : ℕ := 100

/-- The variance of the empirical distribution of a sample list: the
mean of the squared deviations from the sample mean (normalized by the
number of samples). -/
def empiricalVar (xs : List ℚ) : ℚ :=
  (xs.map (fun x => (x - npMean xs) ^ 2)).sum / xs.length

/-- The elementwise mean of the sample passes. -/
def empiricalMeanAt (forward : ℕ → List ℚ) (samples j : ℕ) : ℚ :=
  npMean (((List.range samples).map forward).map (fun p => p.getD j 0))

/-- The j-th column of the stacked predictions. -/
def sampleColumn (forward : ℕ → List ℚ) (samples j : ℕ) : List ℚ :=
  ((List.range samples).map forward).map (fun p => p.getD j 0)

/-- `scipy.stats.norm(mu, std)` probability density at `y`. -/
noncomputable def normPdf (mu std y : ℝ) : ℝ :=
  Real.exp (-((y - mu) ^ 2) / (2 * std ^ 2)) / (std * Real.sqrt (2 * Real.pi))

/-- Python `zip` of three equal-length float arrays. -/
def zip3 (a b c : List ℝ) : List (ℝ × ℝ × ℝ) := a.zip (b.zip c)

/-- The notebook metric

  `def nlpd(y, y_pred, y_std): nld = 0;`
  `for y_true, mu, std in zip(…): nld += -norm(mu, std).logpdf(y_true);`
  `return nld / len(y)` -/
noncomputable def nlpd (y y_pred y_std : List ℝ) : ℝ :=
  ((zip3 y y_pred y_std).foldl
    (fun nld t => nld + -Real.log (normPdf t.2.1 t.2.2 t.1)) 0) / y.length

theorem zip_map_sum_eq_range_gen {α β : Type} (f : α → β → ℝ) (da : α) (db : β) :
    ∀ (ys : List α) (zs : List β), ys.length = zs.length →
      ((ys.zip zs).map (fun p => f p.1 p.2)).sum
        = ((List.range ys.length).map
            (fun j => f (ys.getD j da) (zs.getD j db))).sum := by
  intro ys
  induction ys with
  | nil => intro zs _; simp
  | cons y ys ih =>
    intro zs hlen
    cases zs with
    | nil => simp at hlen
    | cons z zs =>
      simp only [List.length_cons, Nat.succ.injEq] at hlen
      rw [List.zip_cons_cons, List.map_cons, List.sum_cons, ih zs hlen]
      rw [List.length_cons, List.range_succ_eq_map, List.map_cons,
        List.sum_cons, List.map_map]
      congr 1

theorem nlpd_foldl_eq :
    ∀ (l : List (ℝ × ℝ × ℝ)) (a : ℝ),
      l.foldl (fun nld t => nld + -Real.log (normPdf t.2.1 t.2.2 t.1)) a
        = a + (l.map (fun t => -Real.log (normPdf t.2.1 t.2.2 t.1))).sum := by
  intro l
  induction l with
  | nil => intro a; simp
  | cons x xs ih =>
    intro a
    rw [List.foldl_cons, ih]
    simp [add_assoc]

theorem getD_zip_lt (a b : List ℝ) (j : ℕ)
    (hja : j < a.length) (hjb : j < b.length) :
    (a.zip b).getD j (0, 0) = (a.getD j 0, b.getD j 0) := by
  have hj : j < (a.zip b).length := by
    rw [List.length_zip]
    omega
  rw [List.getD_eq_getElem _ _ hj, List.getElem_zip,
    List.getD_eq_getElem _ _ hja, List.getD_eq_getElem _ _ hjb]

/-- The `nlpd` fold equals the mean of the pointwise negative
log-densities. -/
theorem nlpd_eq_mean_neg_log (y y_pred y_std : List ℝ)
    (h1 : y_pred.length = y.length) (h2 : y_std.length = y.length) :
    nlpd y y_pred y_std
      = (1 / (y.length : ℝ)) *
        ((List.range y.length).map (fun i =>
          -Real.log (normPdf (y_pred.getD i 0) (y_std.getD i 0)
            (y.getD i 0)))).sum := by
  unfold nlpd zip3
  rw [nlpd_foldl_eq, zero_add]
  have hlen : y.length = (y_pred.zip y_std).length := by
    rw [List.length_zip, h1, h2]
    simp
  have hz := zip_map_sum_eq_range_gen
    (fun a p => -Real.log (normPdf p.1 p.2 a)) (0 : ℝ) ((0 : ℝ), (0 : ℝ))
    y (y_pred.zip y_std) hlen
  dsimp only at hz
  rw [hz]
  have hcong : ((List.range y.length).map (fun j =>
        -Real.log (normPdf ((y_pred.zip y_std).getD j (0, 0)).1
          ((y_pred.zip y_std).getD j (0, 0)).2 (y.getD j 0)))).sum
      = ((List.range y.length).map (fun i =>
        -Real.log (normPdf (y_pred.getD i 0) (y_std.getD i 0)
          (y.getD i 0)))).sum := by
    refine congrArg List.sum (List.map_congr_left ?_)
    intro j hj
    rw [List.mem_range] at hj
    rw [getD_zip_lt y_pred y_std j (by omega) (by omega)]
  rw [hcong, one_div, inv_mul_eq_div]

/-! ## The Bayesian-GNN epoch loop with early stopping

Lines 199-257 of the Bayesian-GNN notebook: per epoch, train, compute the
test-set validation loss, update the best loss / best model deep copy /
patience counter, and break once the counter reaches `patience = 50`.
The per-epoch validation losses are the input list `vals`; `bestEpoch`
records which epoch's deep copy is currently held in `best_model`. -/

structure EpochState where
  bestLoss : Option ℚ
  bestEpoch : Option ℕ
  count : ℕ
  epochsRun : ℕ
  stopped : Bool
deriving DecidableEq, Repr

def initEpochState : EpochState :=
  { bestLoss := none, bestEpoch := none, count := 0,
    epochsRun := 0, stopped := false }

/-- The update guard `best_loss > val_loss`, with `best_loss` initialised
to `np.inf` (modelled by `none`). -/
def improves : Option ℚ → ℚ → Bool
  | none, _ => true
  | some b, v => decide (v < b)

/-- One iteration of the epoch loop: epoch `s.epochsRun` trains, computes
its validation loss, and either updates `best_loss`/`best_model` and
resets the counter (strict improvement) or increments the counter and
raises the stop flag when it reaches `patience`. -/
def epochStep (patience : ℕ) (vals : List ℚ) (s : EpochState) : EpochState :=
  if improves s.bestLoss (vals.getD s.epochsRun 0) then
    { bestLoss := some (vals.getD s.epochsRun 0)
      bestEpoch := some s.epochsRun
      count := 0
      epochsRun := s.epochsRun + 1
      stopped := false }
  else
    { s with
      count := s.count + 1
      epochsRun := s.epochsRun + 1
      stopped := decide (patience ≤ s.count + 1) }

def runEpochsAux (patience : ℕ) (vals : List ℚ) : ℕ → EpochState → EpochState
  | 0, s => s
  | n + 1, s =>
    if s.stopped then s
    else runEpochsAux patience vals n (epochStep patience vals s)

/-- `for epoch in pbar: … if count >= patience: break` over the length of
the validation-loss sequence (`n_epochs` entries). -/
def runEpochs (patience : ℕ) (vals : List ℚ) : EpochState :=
  runEpochsAux patience vals vals.length initEpochState

/-- The minimum of the first `e` validation losses (`np.inf` for `e = 0`):
the best value seen before epoch `e`. -/
def prefMin (vals : List ℚ) : ℕ → Option ℚ
  | 0 => none
  | e + 1 =>
    match prefMin vals e with
    | none => some (vals.getD e 0)
    | some m => some (min m (vals.getD e 0))

/-- Epoch `e` strictly improves on the best validation loss seen so far. -/
def improvesAt (vals : List ℚ) (e : ℕ) : Prop :=
  improves (prefMin vals e) (vals.getD e 0) = true

instance (vals : List ℚ) (e : ℕ) : Decidable (improvesAt vals e) := by
  unfold improvesAt
  infer_instance

/-- `patience` consecutive epochs pass without strict improvement, the
last of them being epoch `f`. -/
def streakEndAt (patience : ℕ) (vals : List ℚ) (f : ℕ) : Prop :=
  patience ≤ f + 1 ∧ ∀ j, f + 1 ≤ j + patience → j ≤ f → ¬ improvesAt vals j

instance (patience : ℕ) (vals : List ℚ) (f : ℕ) :
    Decidable (streakEndAt patience vals f) := by
  unfold streakEndAt
  have : (∀ j, f + 1 ≤ j + patience → j ≤ f → ¬ improvesAt vals j)
      ↔ ∀ j ≤ f, f + 1 ≤ j + patience → ¬ improvesAt vals j := by
    constructor
    · intro h j hj hp
      exact h j hp hj
    · intro h j hp hj
      exact h j hj hp
  rw [this]
  infer_instance

/-- `b` is the earliest index attaining the minimum of the first `n`
validation losses. -/
def isFirstArgmin (vals : List ℚ) (n b : ℕ) : Prop :=
  b < n ∧ (∀ j < n, vals.getD b 0 ≤ vals.getD j 0)
    ∧ ∀ j < b, vals.getD b 0 < vals.getD j 0

instance (vals : List ℚ) (n b : ℕ) : Decidable (isFirstArgmin vals n b) := by
  unfold isFirstArgmin
  infer_instance

/-! ## The Bayesian-GNN `evaluate_model` loop

`evaluate_model(X, y, n_epochs=100, n_trials=20, …)` of the Bayesian-GNN
notebook.  `X` is a list of PyG graphs (an arbitrary type here); the
stochastic parts (splitter, scaler scale, training trajectory, sampling)
are abstracted into the environment. -/

structure GNNEnv (α : Type) where
  /-- the seeded in-loop `train_test_split(X, y, test_size, random_state)`. -/
  baseSplit : List α → List ℚ → ℚ → ℕ → List α × List α × List ℚ × List ℚ
  /-- the pre-loop `_, y_test = train_test_split(y, test_size)`: no seed is
  passed, so the result also depends on the ambient global RNG state. -/
  baseSplitY : List ℚ → ℚ → ℕ → List ℚ × List ℚ
  /-- `StandardScaler().fit` on the training labels. -/
  fitScaler : List ℚ → Scaler
  /-- the X-slot standardization inside `transform_data` (the notebook
  passes the label lists in the X slots and discards these outputs). -/
  scaleX : List ℚ → List ℚ
  /-- validation loss of epoch `e` in trial `i`: the MSE of the default
  `predict(model, data)` against the test batch. -/
  valLoss : ℕ → ℕ → ℚ
  /-- the `s`-th stochastic forward pass `best_model(data)[0]` on the
  single test batch in trial `i`. -/
  forward : ℕ → ℕ → List ℚ

structure GNNTrial (α : Type) where
  /-- arguments handed to the in-loop `train_test_split`. -/
  splitArgs : ℚ × Option ℕ
  X_train : List α
  X_test : List α
  y_train_raw : List ℚ
  y_test_raw : List ℚ
  y_scaler : Scaler
  /-- `y_train` after `transform_data`. -/
  y_train : List ℚ
  /-- `y_test` after `transform_data` (standardized space). -/
  y_test_std : List ℚ
  /-- the final state of the early-stopping epoch loop. -/
  epochResult : EpochState
  /-- the `samples` argument of the final `predict` call. -/
  predictSamples : ℕ
  /-- `y_pred` of the final sampling (standardized space). -/
  y_pred_std : List ℚ
  /-- `y_var` of the final sampling. -/
  y_var : List ℚ
  /-- `y_pred` after `y_scaler.inverse_transform`. -/
  y_pred : List ℚ
  /-- `y_test` after `y_scaler.inverse_transform`. -/
  y_test : List ℚ
  maeConfRow : List ℚ
  r2 : ℚ
  mse : ℚ
  mae : ℚ

/-- The seeded `train_test_split` of the Bayesian-GNN notebook (same
sklearn contract as the GP one; `amb` is the ambient global RNG state
used when no seed is passed). -/
def gnn_train_test_split {α : Type} (env : GNNEnv α) (X : List α)
    (y : List ℚ) (test_size : ℚ) (random_state : Option ℕ) (amb : ℕ) :
    List α × List α × List ℚ × List ℚ :=
  match random_state with
  | some s => env.baseSplit X y test_size s
  | none => env.baseSplit X y test_size amb

/-- One trial of the Bayesian-GNN `evaluate_model` loop, embedding the
loop body in code order. -/
def gnnTrial {α : Type} (env : GNNEnv α) (X : List α) (y : List ℚ)
    (n_epochs amb : ℕ) (i : ℕ) : GNNTrial α :=
  let sp := gnn_train_test_split env X y (1 / 5) (some i) amb
  let X_train := sp.1
  let X_test := sp.2.1
  let y_train0 := sp.2.2.1
  let y_test0 := sp.2.2.2
  let td := transform_data env.scaleX env.fitScaler y_train0 y_train0 y_test0 y_test0
  let y_train := td.2.1
  let y_test1 := td.2.2.2.1
  let y_scaler := td.2.2.2.2
  let es := runEpochs 50 ((List.range n_epochs).map (env.valLoss i))
  let pr := predict (env.forward i) y_test0.length 100
  let y_pred0 := pr.1
  let y_var := pr.2
  let y_pred := y_scaler.inverse_transform y_pred0
  let y_test := y_scaler.inverse_transform y_test1
  { splitArgs := (1 / 5, some i)
    X_train := X_train
    X_test := X_test
    y_train_raw := y_train0
    y_test_raw := y_test0
    y_scaler := y_scaler
    y_train := y_train
    y_test_std := y_test1
    epochResult := es
    predictSamples := 100
    y_pred_std := y_pred0
    y_var := y_var
    y_pred := y_pred
    y_test := y_test
    maeConfRow := confRow y_test y_pred y_var
    r2 := r2_score y_test y_pred
    mse := mean_squared_error y_test y_pred
    mae := mean_absolute_error y_test y_pred }

def qList (xs : List ℚ) : List ℝ := xs.map (fun q : ℚ => (q : ℝ))

/-- `uq_nlpd = nlpd(y_test, y_pred, np.sqrt(y_var))`, computed on the
standardized-space quantities of the trial. -/
noncomputable def gnnNlpd {α : Type} (t : GNNTrial α) : ℝ :=
  nlpd (qList t.y_test_std) (qList t.y_pred_std)
    ((qList t.y_var).map Real.sqrt)

structure GNNAcc (α : Type) where
  r2_list : List ℚ
  mse_list : List ℚ
  mae_list : List ℚ
  mae_confidence_list : List (List ℚ)
  trials : List (GNNTrial α)

def gnnAccInit (α : Type) : GNNAcc α :=
  { r2_list := [], mse_list := [], mae_list := [],
    mae_confidence_list := [], trials := [] }

def gnnAccStep {α : Type} (env : GNNEnv α) (X : List α) (y : List ℚ)
    (n_epochs amb : ℕ) (acc : GNNAcc α) (i : ℕ) : GNNAcc α :=
  let t := gnnTrial env X y n_epochs amb i
  { r2_list := acc.r2_list ++ [t.r2]
    mse_list := acc.mse_list ++ [t.mse]
    mae_list := acc.mae_list ++ [t.mae]
    mae_confidence_list := acc.mae_confidence_list ++ [t.maeConfRow]
    trials := acc.trials ++ [t] }

/-- `for i in range(0, n_trials): …` of the Bayesian-GNN notebook. -/
def gnnRun {α : Type} (env : GNNEnv α) (X : List α) (y : List ℚ)
    (n_epochs amb n_trials : ℕ) : GNNAcc α :=
  (List.range n_trials).foldl (gnnAccStep env X y n_epochs amb) (gnnAccInit α)

/-- The recorded `nlpd_list`, one `uq_nlpd` per trial. -/
noncomputable def gnnNlpdList {α : Type} (acc : GNNAcc α) : List ℝ :=
  acc.trials.map gnnNlpd

/-- The Bayesian-GNN notebook's recorded `rmse_list`:
`np.sqrt(mean_squared_error(y_test, y_pred))` per trial. -/
noncomputable def gnnRmseList {α : Type} (acc : GNNAcc α) : List ℝ :=
  acc.mse_list.map (fun m : ℚ => Real.sqrt (m : ℝ))

theorem gnnRun_foldl {α : Type} (env : GNNEnv α) (X : List α) (y : List ℚ)
    (n_epochs amb : ℕ) :
    ∀ (l : List ℕ) (acc : GNNAcc α),
      l.foldl (gnnAccStep env X y n_epochs amb) acc =
        { r2_list := acc.r2_list ++ l.map (fun i => (gnnTrial env X y n_epochs amb i).r2)
          mse_list := acc.mse_list ++ l.map (fun i => (gnnTrial env X y n_epochs amb i).mse)
          mae_list := acc.mae_list ++ l.map (fun i => (gnnTrial env X y n_epochs amb i).mae)
          mae_confidence_list := acc.mae_confidence_list
            ++ l.map (fun i => (gnnTrial env X y n_epochs amb i).maeConfRow)
          trials := acc.trials ++ l.map (gnnTrial env X y n_epochs amb) } := by
  intro l
  induction l with
  | nil => intro acc; simp
  | cons x xs ih =>
    intro acc
    rw [List.foldl_cons, ih]
    simp [gnnAccStep]

theorem gnnRun_eq_map {α : Type} (env : GNNEnv α) (X : List α) (y : List ℚ)
    (n_epochs amb n : ℕ) :
    gnnRun env X y n_epochs amb n =
      { r2_list := (List.range n).map (fun i => (gnnTrial env X y n_epochs amb i).r2)
        mse_list := (List.range n).map (fun i => (gnnTrial env X y n_epochs amb i).mse)
        mae_list := (List.range n).map (fun i => (gnnTrial env X y n_epochs amb i).mae)
        mae_confidence_list :=
          (List.range n).map (fun i => (gnnTrial env X y n_epochs amb i).maeConfRow)
        trials := (List.range n).map (gnnTrial env X y n_epochs amb) } := by
  rw [gnnRun, gnnRun_foldl]
  simp [gnnAccInit]

/-! ### Correctness of the early-stopping loop -/

theorem improvesAt_zero (vals : List ℚ) : improvesAt vals 0 := rfl

theorem prefMin_eq_none_iff (vals : List ℚ) (e : ℕ) :
    prefMin vals e = none ↔ e = 0 := by
  cases e with
  | zero => simp [prefMin]
  | succ n =>
    simp only [prefMin]
    cases prefMin vals n <;> simp

theorem prefMin_le (vals : List ℚ) :
    ∀ e m, prefMin vals e = some m → ∀ j < e, m ≤ vals.getD j 0 := by
  intro e
  induction e with
  | zero => intro m _ j hj; omega
  | succ n ih =>
    intro m hm j hj
    rcases Nat.lt_succ_iff_lt_or_eq.mp hj with hj | hj
    · cases hpm : prefMin vals n with
      | none =>
        have h0 : n = 0 := (prefMin_eq_none_iff vals n).mp hpm
        omega
      | some m0 =>
        have h1 : m ≤ m0 := by
          simp only [prefMin, hpm] at hm
          rw [← Option.some_inj.mp hm]
          exact min_le_left _ _
        exact le_trans h1 (ih m0 hpm j hj)
    · subst hj
      cases hpm : prefMin vals j with
      | none =>
        simp only [prefMin, hpm] at hm
        exact le_of_eq (Option.some_inj.mp hm).symm
      | some m0 =>
        simp only [prefMin, hpm] at hm
        rw [← Option.some_inj.mp hm]
        exact min_le_right _ _

theorem improvesAt_elim_lt (vals : List ℚ) (e : ℕ) (h : improvesAt vals e) :
    prefMin vals e = none
      ∨ ∃ m, prefMin vals e = some m ∧ vals.getD e 0 < m := by
  unfold improvesAt at h
  cases hpm : prefMin vals e with
  | none => exact Or.inl rfl
  | some m =>
    rw [hpm] at h
    simp only [improves, decide_eq_true_eq] at h
    exact Or.inr ⟨m, rfl, h⟩

theorem not_improvesAt_elim (vals : List ℚ) (e : ℕ) (h : ¬ improvesAt vals e) :
    ∃ m, prefMin vals e = some m ∧ m ≤ vals.getD e 0 := by
  unfold improvesAt at h
  cases hpm : prefMin vals e with
  | none =>
    rw [hpm] at h
    simp [improves] at h
  | some m =>
    rw [hpm] at h
    simp only [improves, decide_eq_true_eq] at h
    exact ⟨m, rfl, le_of_not_lt h⟩

theorem not_improvesAt_pos (vals : List ℚ) (e : ℕ) (h : ¬ improvesAt vals e) :
    0 < e := by
  rcases Nat.eq_zero_or_pos e with he | he
  · subst he
    exact absurd (improvesAt_zero vals) h
  · exact he

theorem prefMin_succ_improve (vals : List ℚ) (e : ℕ) (h : improvesAt vals e) :
    prefMin vals (e + 1) = some (vals.getD e 0) := by
  rcases improvesAt_elim_lt vals e h with hn | ⟨m, hm, hlt⟩
  · simp [prefMin, hn]
  · simp only [prefMin, hm]
    rw [min_eq_right (le_of_lt hlt)]

theorem prefMin_succ_not_improve (vals : List ℚ) (e : ℕ)
    (h : ¬ improvesAt vals e) : prefMin vals (e + 1) = prefMin vals e := by
  rcases not_improvesAt_elim vals e h with ⟨m, hm, hle⟩
  simp only [prefMin, hm]
  rw [min_eq_left hle]

/-- The loop invariant of the epoch loop: the state reached after
processing `epochsRun` epochs without the break having fired. -/
structure EpochInv (patience : ℕ) (vals : List ℚ) (s : EpochState) : Prop where
  notStopped : s.stopped = false
  best : s.bestLoss = prefMin vals s.epochsRun
  bestE : (s.bestEpoch = none ∧ s.epochsRun = 0)
    ∨ ∃ b, s.bestEpoch = some b ∧ s.bestLoss = some (vals.getD b 0)
      ∧ isFirstArgmin vals s.epochsRun b
  countZero : s.epochsRun = 0 → s.count = 0
  countPat : s.count < patience
  countLt : 0 < s.epochsRun → s.count < s.epochsRun
  trailing : ∀ j, s.epochsRun ≤ j + s.count → j < s.epochsRun → ¬ improvesAt vals j
  lastImp : 0 < s.epochsRun → improvesAt vals (s.epochsRun - s.count - 1)
  noStreak : ∀ e, e + 1 ≤ s.epochsRun → ¬ streakEndAt patience vals e

theorem epochInv_init (patience : ℕ) (hp : 0 < patience) (vals : List ℚ) :
    EpochInv patience vals initEpochState := by
  refine ⟨rfl, rfl, Or.inl ⟨rfl, rfl⟩, fun _ => rfl, hp, ?_, ?_, ?_, ?_⟩
  · intro h
    exact absurd h (by simp [initEpochState])
  · intro j h1 h2
    exact absurd h2 (by simp [initEpochState])
  · intro h
    exact absurd h (by simp [initEpochState])
  · intro e he
    exact absurd he (by simp [initEpochState])

theorem epochStep_eq_improve (patience : ℕ) (vals : List ℚ) (s : EpochState)
    (hg : improves s.bestLoss (vals.getD s.epochsRun 0) = true) :
    epochStep patience vals s =
      { bestLoss := some (vals.getD s.epochsRun 0)
        bestEpoch := some s.epochsRun
        count := 0
        epochsRun := s.epochsRun + 1
        stopped := false } := by
  unfold epochStep
  rw [if_pos hg]

theorem epochStep_eq_not_improve (patience : ℕ) (vals : List ℚ) (s : EpochState)
    (hg : improves s.bestLoss (vals.getD s.epochsRun 0) = false) :
    epochStep patience vals s =
      { s with
        count := s.count + 1
        epochsRun := s.epochsRun + 1
        stopped := decide (patience ≤ s.count + 1) } := by
  have hg' : ¬ improves s.bestLoss (vals.getD s.epochsRun 0) = true := by
    rw [hg]
    exact Bool.false_ne_true
  unfold epochStep
  rw [if_neg hg']

theorem epochStep_guard (patience : ℕ) (vals : List ℚ) (s : EpochState)
    (hinv : EpochInv patience vals s) :
    improves s.bestLoss (vals.getD s.epochsRun 0) = true
      ↔ improvesAt vals s.epochsRun := by
  unfold improvesAt
  rw [hinv.best]

theorem guard_false_of_not_improvesAt (patience : ℕ) (vals : List ℚ)
    (s : EpochState) (hinv : EpochInv patience vals s)
    (hnimp : ¬ improvesAt vals s.epochsRun) :
    improves s.bestLoss (vals.getD s.epochsRun 0) = false := by
  rcases Bool.eq_false_or_eq_true (improves s.bestLoss (vals.getD s.epochsRun 0))
    with h | h
  · exact absurd ((epochStep_guard patience vals s hinv).mp h) hnimp
  · exact h

theorem epochStep_inv_improve (patience : ℕ) (hp : 0 < patience)
    (vals : List ℚ) (s : EpochState) (hinv : EpochInv patience vals s)
    (himp : improvesAt vals s.epochsRun) :
    EpochInv patience vals (epochStep patience vals s) := by
  have hg : improves s.bestLoss (vals.getD s.epochsRun 0) = true :=
    (epochStep_guard patience vals s hinv).mpr himp
  rw [epochStep_eq_improve patience vals s hg]
  refine ⟨rfl, ?_, ?_, fun h => rfl, hp, fun _ => Nat.succ_pos _, ?_, ?_, ?_⟩
  · show some (vals.getD s.epochsRun 0) = prefMin vals (s.epochsRun + 1)
    exact (prefMin_succ_improve vals s.epochsRun himp).symm
  · refine Or.inr ⟨s.epochsRun, rfl, rfl, Nat.lt_succ_self _, ?_, ?_⟩
    · intro j hj
      rcases Nat.lt_succ_iff_lt_or_eq.mp hj with hj | hj
      · rcases improvesAt_elim_lt vals s.epochsRun himp with hn | ⟨m, hm, hlt⟩
        · have h0 : s.epochsRun = 0 := (prefMin_eq_none_iff vals _).mp hn
          omega
        · exact le_of_lt (lt_of_lt_of_le hlt (prefMin_le vals _ m hm j hj))
      · subst hj
        exact le_refl _
    · intro j hj
      rcases improvesAt_elim_lt vals s.epochsRun himp with hn | ⟨m, hm, hlt⟩
      · have h0 : s.epochsRun = 0 := (prefMin_eq_none_iff vals _).mp hn
        omega
      · exact lt_of_lt_of_le hlt (prefMin_le vals _ m hm j hj)
  · show ∀ j, s.epochsRun + 1 ≤ j + 0 → j < s.epochsRun + 1 → ¬ improvesAt vals j
    intro j h1 h2
    omega
  · show 0 < s.epochsRun + 1 → improvesAt vals (s.epochsRun + 1 - 0 - 1)
    intro _
    have harith : s.epochsRun + 1 - 0 - 1 = s.epochsRun := by omega
    rw [harith]
    exact himp
  · show ∀ e, e + 1 ≤ s.epochsRun + 1 → ¬ streakEndAt patience vals e
    intro e he hstreak
    rcases Nat.lt_or_ge (e + 1) (s.epochsRun + 1) with hlt | hge
    · exact hinv.noStreak e (by omega) hstreak
    · have he' : e = s.epochsRun := by omega
      subst he'
      exact hstreak.2 s.epochsRun (by omega) (le_refl _) himp

theorem epochStep_inv_cont (patience : ℕ) (_hp : 0 < patience)
    (vals : List ℚ) (s : EpochState) (hinv : EpochInv patience vals s)
    (hnimp : ¬ improvesAt vals s.epochsRun) (hc : s.count + 1 < patience) :
    EpochInv patience vals (epochStep patience vals s) := by
  have hg := guard_false_of_not_improvesAt patience vals s hinv hnimp
  rw [epochStep_eq_not_improve patience vals s hg]
  have hn0 : 0 < s.epochsRun := not_improvesAt_pos vals _ hnimp
  obtain ⟨m, hm, hmle⟩ := not_improvesAt_elim vals _ hnimp
  have hclt : s.count < s.epochsRun := hinv.countLt hn0
  refine ⟨?_, ?_, ?_, ?_, hc, ?_, ?_, ?_, ?_⟩
  · show decide (patience ≤ s.count + 1) = false
    simp [Nat.not_le.mpr hc]
  · show s.bestLoss = prefMin vals (s.epochsRun + 1)
    rw [hinv.best]
    exact (prefMin_succ_not_improve vals s.epochsRun hnimp).symm
  · show (s.bestEpoch = none ∧ s.epochsRun + 1 = 0)
      ∨ ∃ b, s.bestEpoch = some b ∧ s.bestLoss = some (vals.getD b 0)
        ∧ isFirstArgmin vals (s.epochsRun + 1) b
    rcases hinv.bestE with ⟨_, h0⟩ | ⟨b, hb, hbl, hbfa⟩
    · omega
    · refine Or.inr ⟨b, hb, hbl, hbfa.1.trans (Nat.lt_succ_self _), ?_, hbfa.2.2⟩
      intro j hj
      rcases Nat.lt_succ_iff_lt_or_eq.mp hj with hj | hj
      · exact hbfa.2.1 j hj
      · subst hj
        have hbm : vals.getD b 0 = m := by
          have hsome := hinv.best.symm.trans hbl
          rw [hm] at hsome
          exact (Option.some_inj.mp hsome).symm
        rw [hbm]
        exact hmle
  · show s.epochsRun + 1 = 0 → s.count + 1 = 0
    intro h
    exact absurd h (Nat.succ_ne_zero _)
  · show 0 < s.epochsRun + 1 → s.count + 1 < s.epochsRun + 1
    intro _
    omega
  · show ∀ j, s.epochsRun + 1 ≤ j + (s.count + 1) → j < s.epochsRun + 1
      → ¬ improvesAt vals j
    intro j h1 h2
    rcases Nat.lt_succ_iff_lt_or_eq.mp h2 with hj | hj
    · exact hinv.trailing j (by omega) hj
    · subst hj
      exact hnimp
  · show 0 < s.epochsRun + 1
      → improvesAt vals (s.epochsRun + 1 - (s.count + 1) - 1)
    intro _
    have harith : s.epochsRun + 1 - (s.count + 1) - 1
        = s.epochsRun - s.count - 1 := by omega
    rw [harith]
    exact hinv.lastImp hn0
  · show ∀ e, e + 1 ≤ s.epochsRun + 1 → ¬ streakEndAt patience vals e
    intro e he hstreak
    rcases Nat.lt_or_ge (e + 1) (s.epochsRun + 1) with hlt | hge
    · exact hinv.noStreak e (by omega) hstreak
    · have he' : e = s.epochsRun := by omega
      subst he'
      have hL : improvesAt vals (s.epochsRun - s.count - 1) :=
        hinv.lastImp hn0
      exact hstreak.2 (s.epochsRun - s.count - 1) (by omega) (by omega) hL

theorem epochStep_stop (patience : ℕ) (_hp : 0 < patience)
    (vals : List ℚ) (s : EpochState) (hinv : EpochInv patience vals s)
    (hnimp : ¬ improvesAt vals s.epochsRun) (hc : patience ≤ s.count + 1) :
    (epochStep patience vals s).stopped = true
      ∧ (epochStep patience vals s).epochsRun = s.epochsRun + 1
      ∧ streakEndAt patience vals s.epochsRun
      ∧ (epochStep patience vals s).bestLoss = prefMin vals (s.epochsRun + 1)
      ∧ ∃ b, (epochStep patience vals s).bestEpoch = some b
          ∧ (epochStep patience vals s).bestLoss = some (vals.getD b 0)
          ∧ isFirstArgmin vals (s.epochsRun + 1) b := by
  have hg := guard_false_of_not_improvesAt patience vals s hinv hnimp
  rw [epochStep_eq_not_improve patience vals s hg]
  have hn0 : 0 < s.epochsRun := not_improvesAt_pos vals _ hnimp
  obtain ⟨m, hm, hmle⟩ := not_improvesAt_elim vals _ hnimp
  have hclt : s.count < s.epochsRun := hinv.countLt hn0
  refine ⟨by simp [hc], rfl, ⟨by omega, ?_⟩, ?_, ?_⟩
  · intro j h1 h2
    rcases Nat.lt_or_eq_of_le h2 with hj | hj
    · exact hinv.trailing j (by omega) hj
    · subst hj
      exact hnimp
  · show s.bestLoss = prefMin vals (s.epochsRun + 1)
    rw [hinv.best]
    exact (prefMin_succ_not_improve vals s.epochsRun hnimp).symm
  · show ∃ b, s.bestEpoch = some b ∧ s.bestLoss = some (vals.getD b 0)
      ∧ isFirstArgmin vals (s.epochsRun + 1) b
    rcases hinv.bestE with ⟨_, h0⟩ | ⟨b, hb, hbl, hbfa⟩
    · omega
    · refine ⟨b, hb, hbl, hbfa.1.trans (Nat.lt_succ_self _), ?_, hbfa.2.2⟩
      intro j hj
      rcases Nat.lt_succ_iff_lt_or_eq.mp hj with hj | hj
      · exact hbfa.2.1 j hj
      · subst hj
        have hbm : vals.getD b 0 = m := by
          have hsome := hinv.best.symm.trans hbl
          rw [hm] at hsome
          exact (Option.some_inj.mp hsome).symm
        rw [hbm]
        exact hmle

theorem runEpochsAux_stopped (patience : ℕ) (vals : List ℚ) :
    ∀ (fuel : ℕ) (s : EpochState), s.stopped = true →
      runEpochsAux patience vals fuel s = s := by
  intro fuel
  induction fuel with
  | zero => intro s _; rfl
  | succ n _ =>
    intro s h
    unfold runEpochsAux
    rw [if_pos h]

/-- Full characterization of the epoch loop run from an invariant state:
either the break never fires and all remaining epochs run, or the break
fires at the end of the earliest `patience`-length no-improvement streak
`f`, after which the state is frozen with `f + 1` epochs run and the best
model taken at the first argmin of the executed prefix. -/
theorem runEpochsAux_spec (patience : ℕ) (hp : 0 < patience) (vals : List ℚ) :
    ∀ (fuel : ℕ) (s : EpochState), EpochInv patience vals s →
      (EpochInv patience vals (runEpochsAux patience vals fuel s)
        ∧ (runEpochsAux patience vals fuel s).epochsRun = s.epochsRun + fuel)
      ∨ ((runEpochsAux patience vals fuel s).stopped = true
        ∧ ∃ f, s.epochsRun ≤ f ∧ f + 1 ≤ s.epochsRun + fuel
          ∧ (runEpochsAux patience vals fuel s).epochsRun = f + 1
          ∧ streakEndAt patience vals f
          ∧ (∀ e < f, ¬ streakEndAt patience vals e)
          ∧ (runEpochsAux patience vals fuel s).bestLoss = prefMin vals (f + 1)
          ∧ ∃ b, (runEpochsAux patience vals fuel s).bestEpoch = some b
              ∧ (runEpochsAux patience vals fuel s).bestLoss
                  = some (vals.getD b 0)
              ∧ isFirstArgmin vals (f + 1) b) := by
  intro fuel
  induction fuel with
  | zero =>
    intro s hinv
    refine Or.inl ⟨hinv, ?_⟩
    show s.epochsRun = s.epochsRun + 0
    omega
  | succ n ih =>
    intro s hinv
    rw [show runEpochsAux patience vals (n + 1) s
        = if s.stopped = true then s
          else runEpochsAux patience vals n (epochStep patience vals s)
      from rfl]
    rw [if_neg (by rw [hinv.notStopped]; exact Bool.false_ne_true)]
    have he : (epochStep patience vals s).epochsRun = s.epochsRun + 1 := by
      by_cases hg : improves s.bestLoss (vals.getD s.epochsRun 0) = true
      · rw [epochStep_eq_improve patience vals s hg]
      · rw [epochStep_eq_not_improve patience vals s
          (Bool.eq_false_iff.mpr hg)]
    by_cases himp : improvesAt vals s.epochsRun
    · have hinv' := epochStep_inv_improve patience hp vals s hinv himp
      rcases ih (epochStep patience vals s) hinv' with ⟨h1, h2⟩ | ⟨h1, f, hf⟩
      · refine Or.inl ⟨h1, ?_⟩
        rw [h2, he]
        omega
      · refine Or.inr ⟨h1, f, ?_⟩
        rw [he] at hf
        exact ⟨by omega, by omega, hf.2.2.1, hf.2.2.2.1, hf.2.2.2.2.1,
          hf.2.2.2.2.2.1, hf.2.2.2.2.2.2⟩
    · by_cases hc : s.count + 1 < patience
      · have hinv' := epochStep_inv_cont patience hp vals s hinv himp hc
        rcases ih (epochStep patience vals s) hinv' with ⟨h1, h2⟩ | ⟨h1, f, hf⟩
        · refine Or.inl ⟨h1, ?_⟩
          rw [h2, he]
          omega
        · refine Or.inr ⟨h1, f, ?_⟩
          rw [he] at hf
          exact ⟨by omega, by omega, hf.2.2.1, hf.2.2.2.1, hf.2.2.2.2.1,
            hf.2.2.2.2.2.1, hf.2.2.2.2.2.2⟩
      · have hstop := epochStep_stop patience hp vals s hinv himp (by omega)
        rw [runEpochsAux_stopped patience vals n _ hstop.1]
        refine Or.inr ⟨hstop.1, s.epochsRun, le_refl _, ?_,
          hstop.2.1, hstop.2.2.1, ?_, hstop.2.2.2.1, hstop.2.2.2.2⟩
        · omega
        · intro e he2
          exact hinv.noStreak e (by omega)

/-- Claim C1: in every trial of the Bayesian GNN `evaluate_model`, the
epoch loop terminates before completing `n_epochs` epochs (i.e. runs
fewer than `vals.length` epochs) exactly when 50 consecutive epochs pass
without the test-set validation loss strictly improving on the best value
seen so far — the patience counter resets to 0 on any strict improvement
— with the streak completing before the final epoch; and the model used
for the final test-set prediction is the deep copy (`best_model`) taken
at the (first) epoch that achieved the lowest validation loss among the
executed epochs. -/
theorem C1_gnn_early_stopping (vals : List ℚ) :
    ((runEpochs 50 vals).epochsRun < vals.length
      ↔ ∃ e, e + 1 < vals.length ∧ streakEndAt 50 vals e)
    ∧ (∀ b, (runEpochs 50 vals).bestEpoch = some b
        → isFirstArgmin vals (runEpochs 50 vals).epochsRun b)
    ∧ (0 < vals.length → ∃ b, (runEpochs 50 vals).bestEpoch = some b) := by
  have hp : 0 < 50 := by norm_num
  have hrun : runEpochs 50 vals
      = runEpochsAux 50 vals vals.length initEpochState := rfl
  have hspec := runEpochsAux_spec 50 hp vals vals.length initEpochState
    (epochInv_init 50 hp vals)
  have hinit : initEpochState.epochsRun = 0 := rfl
  rw [hinit] at hspec
  rw [hrun]
  rcases hspec with ⟨hinv, hlen⟩ |
    ⟨hstop, f, hf1, hf2, hf3, hstreak, hfirst, hbl, b0, hb0, hbl0, hfa⟩
  · refine ⟨⟨?_, ?_⟩, ?_, ?_⟩
    · intro h
      exact absurd h (by omega)
    · rintro ⟨e, he, hs⟩
      exact absurd hs (hinv.noStreak e (by omega))
    · intro b hb
      rcases hinv.bestE with ⟨hnone, _⟩ | ⟨b1, hb1, _, hfa1⟩
      · rw [hnone] at hb
        exact absurd hb (by simp)
      · rw [hb1] at hb
        rw [← Option.some_inj.mp hb]
        exact hfa1
    · intro hpos
      rcases hinv.bestE with ⟨_, h0⟩ | ⟨b1, hb1, _, _⟩
      · omega
      · exact ⟨b1, hb1⟩
  · refine ⟨⟨?_, ?_⟩, ?_, ?_⟩
    · intro h
      exact ⟨f, by omega, hstreak⟩
    · rintro ⟨e, he, hs⟩
      have hfe : f ≤ e := le_of_not_lt (fun hlt => hfirst e hlt hs)
      omega
    · intro b hb
      rw [hb0] at hb
      rw [← Option.some_inj.mp hb, hf3]
      exact hfa
    · intro _
      exact ⟨b0, hb0⟩

theorem C1_gnn_early_stopping_witness :
    (0 < ([1, 2] : List ℚ).length
      ∧ (runEpochs 50 ([1, 2] : List ℚ)).bestEpoch = some 0)
    ∧ (∃ b, (runEpochs 50 ([1, 2] : List ℚ)).bestEpoch = some b)
    ∧ isFirstArgmin [1, 2] (runEpochs 50 ([1, 2] : List ℚ)).epochsRun 0 :=
  ⟨⟨by decide, by decide⟩,
    (C1_gnn_early_stopping [1, 2]).2.2 (by decide),
    (C1_gnn_early_stopping [1, 2]).2.1 0 (by decide)⟩

/-- Claim C2: for arrays of equal positive length `n`, `nlpd` returns
`(1/n)` times the sum of the negative logarithms of the normal density
with mean `y_pred[i]` and standard deviation `y_std[i]` at `y[i]`; and in
the Bayesian-GNN `evaluate_model` the recorded NLPD is computed on the
standardized test labels with `y_std` the square root of the sampled
predictive variance. -/
theorem C2_nlpd_mean_neg_log_density (y y_pred y_std : List ℝ) (n : ℕ)
    (hy : y.length = n) (hpl : y_pred.length = n) (hsl : y_std.length = n)
    (hn : 0 < n) :
    (nlpd y y_pred y_std
      = (1 / (n : ℝ)) * ((List.range n).map (fun i =>
          -Real.log (normPdf (y_pred.getD i 0) (y_std.getD i 0)
            (y.getD i 0)))).sum)
    ∧ ∀ {α : Type} (env : GNNEnv α) (X : List α) (ys : List ℚ)
        (n_epochs amb i : ℕ),
        gnnNlpd (gnnTrial env X ys n_epochs amb i)
          = nlpd
            (qList ((gnnTrial env X ys n_epochs amb i).y_scaler.transform
              (gnnTrial env X ys n_epochs amb i).y_test_raw))
            (qList ((predict (env.forward i)
              (gnnTrial env X ys n_epochs amb i).y_test_raw.length 100).1))
            ((qList ((predict (env.forward i)
              (gnnTrial env X ys n_epochs amb i).y_test_raw.length 100).2)).map
              Real.sqrt) := by
  constructor
  · subst hy
    exact nlpd_eq_mean_neg_log y y_pred y_std hpl hsl
  · intro α env X ys n_epochs amb i
    rfl

theorem C2_nlpd_witness :
    (([(0 : ℝ)] : List ℝ).length = 1 ∧ ([(0 : ℝ)] : List ℝ).length = 1
      ∧ ([(1 : ℝ)] : List ℝ).length = 1 ∧ 0 < 1)
    ∧ nlpd [(0 : ℝ)] [(0 : ℝ)] [(1 : ℝ)]
      = (1 / ((1 : ℕ) : ℝ)) * ((List.range 1).map (fun i =>
          -Real.log (normPdf (([(0 : ℝ)] : List ℝ).getD i 0)
            (([(1 : ℝ)] : List ℝ).getD i 0)
            (([(0 : ℝ)] : List ℝ).getD i 0)))).sum :=
  ⟨⟨rfl, rfl, rfl, by decide⟩,
    (C2_nlpd_mean_neg_log_density [0] [0] [1] 1 rfl rfl rfl (by decide)).1⟩

/-! ### Correctness of the confidence-error curve -/

theorem confRow_getD (y_test y_pred y_var : List ℚ) (k : ℕ)
    (hk : k < y_test.length) :
    (confRow y_test y_pred y_var).getD k 0
      = mean_absolute_error (select y_test ((argsort y_var).take (k + 1)))
          (select y_pred ((argsort y_var).take (k + 1))) := by
  unfold confRow
  have hk2 : k < ((List.range y_test.length).map (fun k =>
      mean_absolute_error (select y_test ((argsort y_var).take (k + 1)))
        (select y_pred ((argsort y_var).take (k + 1))))).length := by
    simpa using hk
  rw [List.getD_eq_getElem _ _ hk2, List.getElem_map, List.getElem_range]

theorem confRow_last (y_test y_pred y_var : List ℚ)
    (hp : y_test.length = y_pred.length)
    (hv : y_var.length = y_test.length) (h0 : 0 < y_test.length) :
    (confRow y_test y_pred y_var).getD (y_test.length - 1) 0
      = mean_absolute_error y_test y_pred := by
  rw [confRow_getD y_test y_pred y_var _ (by omega)]
  have htake : (argsort y_var).take (y_test.length - 1 + 1) = argsort y_var := by
    apply List.take_of_length_le
    rw [argsort_length, hv]
    omega
  rw [htake]
  apply mae_select_perm
  · have := argsort_perm_range y_var
    rwa [hv] at this
  · exact hp

theorem colMeans_length (m : List (List ℚ)) (n : ℕ) :
    (colMeans m n).length = n := by
  simp [colMeans]

theorem colMeans_getD (m : List (List ℚ)) (n k : ℕ) (hk : k < n) :
    (colMeans m n).getD k 0 = npMean (m.map (fun row => row.getD k 0)) := by
  unfold colMeans
  have hk2 : k < ((List.range n).map (fun k =>
      npMean (m.map (fun row => row.getD k 0)))).length := by
    simpa using hk
  rw [List.getD_eq_getElem _ _ hk2, List.getElem_map, List.getElem_range]

theorem plottedCurve_head (m : List (List ℚ)) (n : ℕ) (hn : 0 < n) :
    (plottedCurve m n).getD 0 0
      = npMean (m.map (fun row => row.getD (n - 1) 0)) := by
  unfold plottedCurve
  have hlen0 : 0 < (colMeans m n).reverse.length := by
    rw [List.length_reverse, colMeans_length]
    exact hn
  have hstep : (colMeans m n).reverse.getD 0 0
      = (colMeans m n).getD (n - 1) 0 := by
    rw [List.getD_eq_getElem _ _ hlen0, List.getElem_reverse]
    have hn1 : n - 1 < (colMeans m n).length := by
      rw [colMeans_length]
      omega
    rw [List.getD_eq_getElem _ _ hn1]
    congr 1
    rw [colMeans_length]
    omega
  rw [hstep, colMeans_getD m n (n - 1) (by omega)]

/-- Claim C3: for every trial and every rank `k < n_test`, the
confidence-error entry `mae_confidence_list[i][k]` is the MAE over
exactly the `k+1` test points of smallest predicted variance (first
conjunct, with the witnessing index set; the run records exactly these
rows, second conjunct); and the plotted curve is the trial-averaged
array reversed, so the value at the leftmost confidence percentile is
the MAE over the entire test set (third conjunct). -/
theorem C3_confidence_error_curve :
    (∀ y_test y_pred y_var : List ℚ,
      y_test.length = y_pred.length → y_var.length = y_test.length →
      ∀ k < y_test.length, ∃ idx : List ℕ,
        (confRow y_test y_pred y_var).getD k 0
            = mean_absolute_error (select y_test idx) (select y_pred idx)
          ∧ idx.Nodup ∧ idx.length = k + 1
          ∧ (∀ a ∈ idx, a < y_test.length)
          ∧ ∀ a ∈ idx, ∀ b, b < y_test.length → b ∉ idx →
              y_var.getD a 0 ≤ y_var.getD b 0)
    ∧ (∀ (env : GPEnv) (X : Mat) (y : List ℚ) (amb n : ℕ),
        (gpRun env X y amb n).mae_confidence_list
          = (List.range n).map (fun i =>
              confRow (gpTrial env X y amb i).y_test
                (gpTrial env X y amb i).y_pred
                (gpTrial env X y amb i).y_var))
    ∧ (∀ (trs : List (List ℚ × List ℚ × List ℚ)) (n : ℕ), 0 < n →
        (∀ tr ∈ trs, tr.1.length = n ∧ tr.1.length = tr.2.1.length
          ∧ tr.2.2.length = tr.1.length) →
        (plottedCurve (trs.map (fun tr => confRow tr.1 tr.2.1 tr.2.2)) n).getD 0 0
          = npMean (trs.map (fun tr => mean_absolute_error tr.1 tr.2.1))) := by
  refine ⟨?_, ?_, ?_⟩
  · intro y_test y_pred y_var hp hv k hk
    refine ⟨(argsort y_var).take (k + 1),
      confRow_getD y_test y_pred y_var k hk, ?_, ?_, ?_, ?_⟩
    · exact List.Nodup.sublist (List.take_sublist _ _) (argsort_nodup y_var)
    · rw [List.length_take, argsort_length, hv]
      omega
    · intro a ha
      have hmem := (mem_argsort_iff y_var a).mp (List.mem_of_mem_take ha)
      omega
    · intro a ha b hb hbn
      exact argsort_take_smallest y_var (k + 1) a ha b (by omega) hbn
  · intro env X y amb n
    rw [gpRun_eq_map]
    rfl
  · intro trs n hn hlen
    rw [plottedCurve_head _ n hn, List.map_map]
    refine congrArg npMean (List.map_congr_left ?_)
    intro tr htr
    obtain ⟨h1, h2, h3⟩ := hlen tr htr
    show (confRow tr.1 tr.2.1 tr.2.2).getD (n - 1) 0
      = mean_absolute_error tr.1 tr.2.1
    rw [← h1]
    exact confRow_last tr.1 tr.2.1 tr.2.2 h2 h3 (by omega)

theorem C3_confidence_error_curve_witness :
    (0 < 2
      ∧ ∀ tr ∈ ([(([1, 2] : List ℚ), ([1, 1] : List ℚ), ([3, 1] : List ℚ))] :
          List (List ℚ × List ℚ × List ℚ)),
        tr.1.length = 2 ∧ tr.1.length = tr.2.1.length
          ∧ tr.2.2.length = tr.1.length)
    ∧ (plottedCurve
        (([(([1, 2] : List ℚ), ([1, 1] : List ℚ), ([3, 1] : List ℚ))] :
          List (List ℚ × List ℚ × List ℚ)).map
            (fun tr => confRow tr.1 tr.2.1 tr.2.2)) 2).getD 0 0
      = npMean (([(([1, 2] : List ℚ), ([1, 1] : List ℚ), ([3, 1] : List ℚ))] :
          List (List ℚ × List ℚ × List ℚ)).map
            (fun tr => mean_absolute_error tr.1 tr.2.1)) :=
  ⟨⟨by decide, by decide⟩,
    C3_confidence_error_curve.2.2
      [(([1, 2] : List ℚ), ([1, 1] : List ℚ), ([3, 1] : List ℚ))] 2
      (by decide) (by decide)⟩

/-! ## The bag-of-amino-acids notebook: the data-loading cell

The notebook's featurization cell defines `bag_of_amino_acids`, but the
data-loading cell computes `X = bag_of_characters(sequences)` — a name no
cell of the notebook binds (its own comment says "process to bag of amino
acids", and the repository CI runs the notebooks with
`pytest --nbval-lax notebooks/`).  We model Python name resolution for
this cell: in a fresh kernel the call raises `NameError`. -/

inductive PyStmt where
  /-- an assignment whose right-hand side only uses attribute access on
  already-imported modules/objects (`df = pd.read_csv(…)`, …). -/
  | assign (target : String)
  /-- an assignment whose right-hand side calls a plain name
  (`X = bag_of_characters(sequences)`). -/
  | assignCall (target fn : String)
deriving DecidableEq, Repr

/-- Execute the statements of a cell over the set of bound names; a call
to an unbound name raises `NameError`. -/
def runCell : List String → List PyStmt → Except String (List String)
  | env, [] => Except.ok env
  | env, PyStmt.assign t :: rest => runCell (t :: env) rest
  | env, PyStmt.assignCall t f :: rest =>
    if f ∈ env then runCell (t :: env) rest
    else Except.error ("NameError: name " ++ f ++ " is not defined")

/-- The names bound by the bag-of-amino-acids notebook before its
data-loading cell runs: the imports of the first cell, the `device` /
`tkwargs` cell, and the featurization cell defining
`bag_of_amino_acids`. -/
def proteinNotebookNames : List String :=
  ["warnings", "sys", "fit_gpytorch_model", "SingleTaskGP", "Normalize",
   "Standardize", "MIN_INFERRED_NOISE_LEVEL", "gpytorch", "GreaterThan",
   "ScaleKernel", "GaussianLikelihood", "ExactMarginalLogLikelihood",
   "GammaPrior", "plt", "np", "pd", "CountVectorizer", "train_test_split",
   "r2_score", "mean_squared_error", "mean_absolute_error", "torch",
   "transform_data", "TanimotoKernel", "device", "tkwargs",
   "bag_of_amino_acids"]

/-- The data-loading cell:
`df = pd.read_csv(…)`; `sequences = df['sequence'].to_list()`;
`X = bag_of_characters(sequences)`; `y = df['fitness'].to_numpy()…`. -/
def loadCell : List PyStmt :=
  [PyStmt.assign "df", PyStmt.assign "sequences",
   PyStmt.assignCall "X" "bag_of_characters", PyStmt.assign "y"]

/-- Claim C4 (refuted by the code — the code is the slip): the notebook
defines `bag_of_amino_acids` but the data-loading cell calls the unbound
name `bag_of_characters`, so in a fresh kernel the featurization step
raises `NameError` instead of completing. -/
theorem C4_load_cell_raises_name_error :
    runCell proteinNotebookNames loadCell
        = Except.error "NameError: name bag_of_characters is not defined"
      ∧ "bag_of_amino_acids" ∈ proteinNotebookNames
      ∧ "bag_of_characters" ∉ proteinNotebookNames := by
  refine ⟨?_, ?_, ?_⟩
  · rfl
  · decide
  · decide

/-! ## Claim theorems about the cross-validation loops -/

def trivialGPEnv : GPEnv :=
  { baseSplit := fun _ _ _ _ => ([], [], [], [])
    fitScaler := fun _ => ⟨0, 1⟩
    scaleX := id
    gpPosterior := fun _ _ _ => ([], []) }

def trivialGNNEnv : GNNEnv Unit :=
  { baseSplit := fun _ _ _ _ => ([], [], [], [])
    baseSplitY := fun _ _ _ => ([], [])
    fitScaler := fun _ => ⟨0, 1⟩
    scaleX := id
    valLoss := fun _ _ => 0
    forward := fun _ _ => [] }

/-- Claim C5: every `evaluate_model` cross-validation loop executes
exactly `n_trials` trials; trial `i` re-splits the data with test
fraction 0.2 (= 1/5) and `random_state = i`; each trial appends exactly
one value to each metric list, so every metric list the reported mean
and standard error are computed from has exactly `n_trials` entries. -/
theorem C5_cross_validation_loop {α : Type} (env : GPEnv) (X : Mat)
    (y : List ℚ) (genv : GNNEnv α) (gX : List α) (gy : List ℚ)
    (n_epochs amb n_trials : ℕ) :
    (∀ i, i < n_trials →
        (gpTrial env X y amb i).splitArgs = (1 / 5, some i))
    ∧ (∀ i, i < n_trials →
        (gnnTrial genv gX gy n_epochs amb i).splitArgs = (1 / 5, some i))
    ∧ ((gpRun env X y amb n_trials).trials
        = (List.range n_trials).map (gpTrial env X y amb))
    ∧ (gpRun env X y amb n_trials).r2_list.length = n_trials
    ∧ (gpRun env X y amb n_trials).mse_list.length = n_trials
    ∧ (gpRun env X y amb n_trials).mae_list.length = n_trials
    ∧ (gpRun env X y amb n_trials).mae_confidence_list.length = n_trials
    ∧ ((gnnRun genv gX gy n_epochs amb n_trials).trials
        = (List.range n_trials).map (gnnTrial genv gX gy n_epochs amb))
    ∧ (gnnRun genv gX gy n_epochs amb n_trials).r2_list.length = n_trials
    ∧ (gnnRun genv gX gy n_epochs amb n_trials).mae_list.length = n_trials
    ∧ (gnnNlpdList (gnnRun genv gX gy n_epochs amb n_trials)).length
        = n_trials := by
  refine ⟨fun i _ => rfl, fun i _ => rfl, ?_, ?_, ?_, ?_, ?_, ?_, ?_, ?_, ?_⟩
  · rw [gpRun_eq_map]
  · rw [gpRun_eq_map]
    simp
  · rw [gpRun_eq_map]
    simp
  · rw [gpRun_eq_map]
    simp
  · rw [gpRun_eq_map]
    simp
  · rw [gnnRun_eq_map]
  · rw [gnnRun_eq_map]
    simp
  · rw [gnnRun_eq_map]
    simp
  · unfold gnnNlpdList
    rw [gnnRun_eq_map]
    simp

theorem C5_cross_validation_loop_witness :
    ((0 : ℕ) < 1
      ∧ (gpTrial trivialGPEnv [] [] 0 0).splitArgs = (1 / 5, some 0))
    ∧ (gnnTrial trivialGNNEnv [] [] 0 0 0).splitArgs = (1 / 5, some 0) :=
  ⟨⟨by decide,
    (C5_cross_validation_loop trivialGPEnv [] [] trivialGNNEnv [] [] 0 0 1).1
      0 (by decide)⟩,
    (C5_cross_validation_loop trivialGPEnv [] [] trivialGNNEnv [] [] 0 0 1).2.1
      0 (by decide)⟩

/-- Claim C6: in every trial — of the GP `evaluate_model` loops and of
the Bayesian-GNN `evaluate_model` alike — the recorded R², RMSE and MAE
are computed on the label arrays mapped back through the scaler's
`inverse_transform` (for a scaler with nonzero scale the test labels
return to the original data space), and the recorded RMSE is the square
root of the mean squared error of those inverse-transformed arrays. -/
theorem C6_metrics_after_inverse_transform {α : Type} (env : GPEnv)
    (X : Mat) (y : List ℚ) (genv : GNNEnv α) (gX : List α) (gy : List ℚ)
    (n_epochs amb i n : ℕ) :
    ((gpTrial env X y amb i).y_test
        = (gpTrial env X y amb i).y_scaler.inverse_transform
            ((gpTrial env X y amb i).y_scaler.transform
              (gpTrial env X y amb i).y_test_raw))
    ∧ ((gpTrial env X y amb i).y_pred
        = (gpTrial env X y amb i).y_scaler.inverse_transform
            (env.gpPosterior (gpTrial env X y amb i).X_train
              (gpTrial env X y amb i).modelInputY
              (gpTrial env X y amb i).X_test).1)
    ∧ ((gpTrial env X y amb i).y_scaler.sigma ≠ 0 →
        (gpTrial env X y amb i).y_test = (gpTrial env X y amb i).y_test_raw)
    ∧ ((gpTrial env X y amb i).r2
        = r2_score (gpTrial env X y amb i).y_test
            (gpTrial env X y amb i).y_pred)
    ∧ ((gpTrial env X y amb i).mae
        = mean_absolute_error (gpTrial env X y amb i).y_test
            (gpTrial env X y amb i).y_pred)
    ∧ (gpRmseList (gpRun env X y amb n)
        = (List.range n).map (fun j => Real.sqrt
            ((mean_squared_error (gpTrial env X y amb j).y_test
              (gpTrial env X y amb j).y_pred : ℚ) : ℝ)))
    ∧ ((gnnTrial genv gX gy n_epochs amb i).y_test
        = (gnnTrial genv gX gy n_epochs amb i).y_scaler.inverse_transform
            ((gnnTrial genv gX gy n_epochs amb i).y_scaler.transform
              (gnnTrial genv gX gy n_epochs amb i).y_test_raw))
    ∧ ((gnnTrial genv gX gy n_epochs amb i).y_pred
        = (gnnTrial genv gX gy n_epochs amb i).y_scaler.inverse_transform
            (gnnTrial genv gX gy n_epochs amb i).y_pred_std)
    ∧ ((gnnTrial genv gX gy n_epochs amb i).y_scaler.sigma ≠ 0 →
        (gnnTrial genv gX gy n_epochs amb i).y_test
          = (gnnTrial genv gX gy n_epochs amb i).y_test_raw)
    ∧ ((gnnTrial genv gX gy n_epochs amb i).r2
        = r2_score (gnnTrial genv gX gy n_epochs amb i).y_test
            (gnnTrial genv gX gy n_epochs amb i).y_pred)
    ∧ ((gnnTrial genv gX gy n_epochs amb i).mae
        = mean_absolute_error (gnnTrial genv gX gy n_epochs amb i).y_test
            (gnnTrial genv gX gy n_epochs amb i).y_pred)
    ∧ gnnRmseList (gnnRun genv gX gy n_epochs amb n)
        = (List.range n).map (fun j => Real.sqrt
            ((mean_squared_error (gnnTrial genv gX gy n_epochs amb j).y_test
              (gnnTrial genv gX gy n_epochs amb j).y_pred : ℚ) : ℝ)) := by
  refine ⟨rfl, rfl, ?_, rfl, rfl, ?_, rfl, rfl, ?_, rfl, rfl, ?_⟩
  · intro hs
    have h1 : (gpTrial env X y amb i).y_test
        = (gpTrial env X y amb i).y_scaler.inverse_transform
            ((gpTrial env X y amb i).y_scaler.transform
              (gpTrial env X y amb i).y_test_raw) := rfl
    rw [h1, Scaler.inverse_transform_transform _ hs]
  · unfold gpRmseList
    rw [gpRun_eq_map]
    show ((List.range n).map (fun j => (gpTrial env X y amb j).mse)).map
        (fun m : ℚ => Real.sqrt (m : ℝ)) = _
    rw [List.map_map]
    rfl
  · intro hs
    have h1 : (gnnTrial genv gX gy n_epochs amb i).y_test
        = (gnnTrial genv gX gy n_epochs amb i).y_scaler.inverse_transform
            ((gnnTrial genv gX gy n_epochs amb i).y_scaler.transform
              (gnnTrial genv gX gy n_epochs amb i).y_test_raw) := rfl
    rw [h1, Scaler.inverse_transform_transform _ hs]
  · unfold gnnRmseList
    rw [gnnRun_eq_map]
    show ((List.range n).map
        (fun j => (gnnTrial genv gX gy n_epochs amb j).mse)).map
        (fun m : ℚ => Real.sqrt (m : ℝ)) = _
    rw [List.map_map]
    rfl

theorem C6_metrics_after_inverse_transform_witness :
    (((gpTrial trivialGPEnv [] [] 0 0).y_scaler.sigma ≠ 0)
      ∧ (gpTrial trivialGPEnv [] [] 0 0).y_test
          = (gpTrial trivialGPEnv [] [] 0 0).y_test_raw)
    ∧ ((gnnTrial trivialGNNEnv [] [] 0 0 0).y_scaler.sigma ≠ 0)
    ∧ (gnnTrial trivialGNNEnv [] [] 0 0 0).y_test
        = (gnnTrial trivialGNNEnv [] [] 0 0 0).y_test_raw :=
  ⟨⟨by decide,
    (C6_metrics_after_inverse_transform trivialGPEnv [] []
      trivialGNNEnv [] [] 0 0 0 0).2.2.1 (by decide)⟩,
    by decide,
    (C6_metrics_after_inverse_transform trivialGPEnv [] []
      trivialGNNEnv [] [] 0 0 0 0).2.2.2.2.2.2.2.2.1 (by decide)⟩

/-! ## Temporal order of the experiment loops

The operations of the loop bodies are straight-line code; we record the
order in which the in-repo code performs them as an event trace: per
trial the split, the model fitting, the test-set prediction and the
metric computation, in source order, and the single confidence-curve
plot after the loop.  The SSK protein notebook runs the same steps once
across consecutive cells. -/

inductive Ev where
  | split (i : ℕ)
  | train (i : ℕ)
  | predict (i : ℕ)
  | evaluate (i : ℕ)
  | plot
deriving DecidableEq, Repr

/-- The operations of one `evaluate_model` trial, in source order:
`train_test_split` / `transform_data`, then `fit_gpytorch_model` (resp.
the epoch loop), then the test-set prediction, then the metric
computation. -/
def trialTrace (i : ℕ) : List Ev :=
  [Ev.split i, Ev.train i, Ev.predict i, Ev.evaluate i]

/-- The whole `evaluate_model` call: the trial loop, then the single
confidence-curve plot. -/
def runTrace (n : ℕ) : List Ev :=
  ((List.range n).flatMap trialTrace) ++ [Ev.plot]

/-- The SSK protein notebook cells in execution order: split, fit,
posterior prediction, metrics, plot. -/
def sskTrace : List Ev :=
  [Ev.split 0, Ev.train 0, Ev.predict 0, Ev.evaluate 0, Ev.plot]

/-- Claim C7: within every trial the operations occur in the order
split, train, predict, evaluate, and the confidence-error plot happens
exactly once, after all trials. -/
theorem C7_trial_order_and_single_plot (n : ℕ) :
    ((runTrace n).count Ev.plot = 1)
    ∧ ((runTrace n).getLast? = some Ev.plot)
    ∧ (∀ i, i < n → ∃ pre suf : List Ev,
        runTrace n
          = pre ++ [Ev.split i, Ev.train i, Ev.predict i, Ev.evaluate i]
            ++ suf ++ [Ev.plot])
    ∧ sskTrace
        = [Ev.split 0, Ev.train 0, Ev.predict 0, Ev.evaluate 0]
          ++ [Ev.plot] := by
  have hnot : Ev.plot ∉ (List.range n).flatMap trialTrace := by
    intro hmem
    rw [List.mem_flatMap] at hmem
    obtain ⟨i, _, hin⟩ := hmem
    simp [trialTrace] at hin
  refine ⟨?_, ?_, ?_, rfl⟩
  · rw [runTrace, List.count_append, List.count_eq_zero.mpr hnot]
    simp
  · rw [runTrace]
    exact List.getLast?_concat _
  · intro i hi
    obtain ⟨s, t, hst⟩ := List.append_of_mem (List.mem_range.mpr hi)
    refine ⟨s.flatMap trialTrace, t.flatMap trialTrace, ?_⟩
    rw [runTrace, hst, List.flatMap_append, List.flatMap_cons]
    show (s.flatMap trialTrace ++ (trialTrace i ++ t.flatMap trialTrace))
        ++ [Ev.plot] = _
    rw [trialTrace]
    simp [List.append_assoc]

theorem C7_trial_order_witness :
    ((0 : ℕ) < 1)
    ∧ ∃ pre suf : List Ev,
        runTrace 1
          = pre ++ [Ev.split 0, Ev.train 0, Ev.predict 0, Ev.evaluate 0]
            ++ suf ++ [Ev.plot] :=
  ⟨by decide, (C7_trial_order_and_single_plot 1).2.2.1 0 (by decide)⟩

/-! ## The stochastic `predict` helper -/

theorem npMean_sampleColumn (forward : ℕ → List ℚ) (samples j : ℕ) :
    npMean (sampleColumn forward samples j)
      = (((List.range samples).map forward).map
          (fun p => p.getD j 0)).sum / (samples : ℚ) := by
  unfold npMean
  rw [show (sampleColumn forward samples j).length = samples from by
    simp [sampleColumn]]
  rfl

theorem sqDev_sampleColumn (forward : ℕ → List ℚ) (samples j : ℕ) :
    ((sampleColumn forward samples j).map (fun x =>
        (x - npMean (sampleColumn forward samples j)) ^ 2)).sum
        / ((samples : ℚ) - 1)
      = (((List.range samples).map forward).map (fun p =>
          (p.getD j 0 - (((List.range samples).map forward).map
            (fun q => q.getD j 0)).sum / (samples : ℚ)) ^ 2)).sum
          / ((samples : ℚ) - 1) := by
  rw [npMean_sampleColumn]
  unfold sampleColumn
  rw [List.map_map]
  rfl

/-- Claim C8, counterexample: with two stochastic passes producing `[0]`
and `[2]`, `predict` returns the variance `2` (`torch.var` with its
default `unbiased=True`, normalizing by `samples - 1`), while the
empirical variance of the two passes is `1`. -/
theorem C8_counterexample_unbiased_variance :
    (predict (fun s : ℕ => [2 * (s : ℚ)]) 1 2).2 = [2]
    ∧ (List.range 1).map (fun j =>
        empiricalVar (sampleColumn (fun s : ℕ => [2 * (s : ℚ)]) 2 j)) = [1]
    ∧ (predict (fun s : ℕ => [2 * (s : ℚ)]) 1 2).2
      ≠ (List.range 1).map (fun j =>
          empiricalVar (sampleColumn (fun s : ℕ => [2 * (s : ℚ)]) 2 j)) := by
  have h1 : (predict (fun s : ℕ => [2 * (s : ℚ)]) 1 2).2 = [2] := by
    norm_num [predict, List.range_succ]
  have h2 : (List.range 1).map (fun j =>
      empiricalVar (sampleColumn (fun s : ℕ => [2 * (s : ℚ)]) 2 j)) = [1] := by
    norm_num [empiricalVar, sampleColumn, npMean, List.range_succ]
  refine ⟨h1, h2, ?_⟩
  rw [h1, h2]
  norm_num

/-- Claim C8 as amended: `predict(regressor, X, samples)` returns the
elementwise empirical mean and the elementwise *unbiased sample variance*
(normalized by `samples - 1`, `torch.var`'s default) of exactly `samples`
stochastic forward passes; `samples` defaults to 100, and the final
test-set prediction of every Bayesian-GNN trial is obtained with
`samples = 100`. -/
theorem C8_predict_mean_and_sample_variance (forward : ℕ → List ℚ)
    (d samples : ℕ) :
    ((predict forward d samples).1
        = (List.range d).map (fun j => npMean (sampleColumn forward samples j)))
    ∧ ((predict forward d samples).2
        = (List.range d).map (fun j =>
            ((sampleColumn forward samples j).map (fun x =>
              (x - npMean (sampleColumn forward samples j)) ^ 2)).sum
              / ((samples : ℚ) - 1)))
    ∧ predictSamplesDefault = 100
    ∧ ∀ {α : Type} (env : GNNEnv α) (X : List α) (ys : List ℚ)
        (n_epochs amb i : ℕ),
        (gnnTrial env X ys n_epochs amb i).predictSamples = 100
        ∧ (gnnTrial env X ys n_epochs amb i).y_pred_std
            = (predict (env.forward i)
                (gnnTrial env X ys n_epochs amb i).y_test_raw.length 100).1
        ∧ (gnnTrial env X ys n_epochs amb i).y_var
            = (predict (env.forward i)
                (gnnTrial env X ys n_epochs amb i).y_test_raw.length 100).2 := by
  refine ⟨?_, ?_, rfl, ?_⟩
  · show (List.range d).map (fun j =>
        (((List.range samples).map forward).map
          (fun p => p.getD j 0)).sum / (samples : ℚ)) = _
    refine List.map_congr_left ?_
    intro j _
    exact (npMean_sampleColumn forward samples j).symm
  · show (List.range d).map (fun j =>
        (((List.range samples).map forward).map (fun p =>
          (p.getD j 0 - (((List.range samples).map forward).map
            (fun q => q.getD j 0)).sum / (samples : ℚ)) ^ 2)).sum
          / ((samples : ℚ) - 1)) = _
    refine List.map_congr_left ?_
    intro j _
    exact (sqDev_sampleColumn forward samples j).symm
  · intro α env X ys n_epochs amb i
    exact ⟨rfl, rfl, rfl⟩

/-- Claim C9: in the GP `evaluate_model` loops the standardization
changes only the labels — the feature matrices handed to the GP model
and to the prediction are exactly the train/test-split outputs, they do
not depend on the X-standardization performed inside `transform_data`,
and only the y outputs of `transform_data` are consumed. -/
theorem C9_features_untouched_by_standardization (env : GPEnv) (X : Mat)
    (y : List ℚ) (amb i : ℕ) (g : Mat → Mat) :
    ((gpTrial env X y amb i).modelInputX
        = (train_test_split env X y (1 / 5) (some i) amb).1)
    ∧ ((gpTrial env X y amb i).predictInputX
        = (train_test_split env X y (1 / 5) (some i) amb).2.1)
    ∧ ((gpTrial env X y amb i).modelInputY
        = (transform_data env.scaleX env.fitScaler
            (train_test_split env X y (1 / 5) (some i) amb).1
            (train_test_split env X y (1 / 5) (some i) amb).2.2.1
            (train_test_split env X y (1 / 5) (some i) amb).2.1
            (train_test_split env X y (1 / 5) (some i) amb).2.2.2).2.1)
    ∧ ((gpTrial { env with scaleX := g } X y amb i).modelInputX
        = (gpTrial env X y amb i).modelInputX)
    ∧ ((gpTrial { env with scaleX := g } X y amb i).predictInputX
        = (gpTrial env X y amb i).predictInputX)
    ∧ ((gpTrial env X y amb i).y_var
        = (env.gpPosterior (gpTrial env X y amb i).modelInputX
            (gpTrial env X y amb i).modelInputY
            (gpTrial env X y amb i).predictInputX).2) :=
  ⟨rfl, rfl, rfl, rfl, rfl, rfl⟩

/-- Claim C10: the in-loop `train_test_split` is called with
`random_state = i`, so the trial-`i` partition is a deterministic
function of the dataset and `i`: two executions of the evaluation loop
differing only in the ambient global RNG state produce identical
trials. -/
theorem C10_seeded_split_determinism {α : Type} (env : GPEnv) (X : Mat)
    (y : List ℚ) (genv : GNNEnv α) (gX : List α) (gy : List ℚ)
    (n_epochs amb1 amb2 n i : ℕ) :
    (train_test_split env X y (1 / 5) (some i) amb1
        = train_test_split env X y (1 / 5) (some i) amb2)
    ∧ gpRun env X y amb1 n = gpRun env X y amb2 n
    ∧ (gnn_train_test_split genv gX gy (1 / 5) (some i) amb1
        = gnn_train_test_split genv gX gy (1 / 5) (some i) amb2)
    ∧ gnnRun genv gX gy n_epochs amb1 n = gnnRun genv gX gy n_epochs amb2 n :=
  ⟨rfl, rfl, rfl, rfl⟩

end Gauche
